import Mathlib

/- Verification of the real-time session relay and audio pipeline:
   shallow embedding of the PCM codec, capture worklet, playback queue
   and websocket gateway, with theorems about their behaviour.
   Audio samples are modelled as exact rationals; 16-bit PCM values as
   integers with explicit range facts. -/

namespace GSPoc

/- ### PCM codec (pcm-recorder.worklet.js, gemini-audio.service.ts) -/

/-- JavaScript ToInt16-style truncation toward zero of a rational.
    Uses the executable `Rat.floor` so that witnesses can be checked by
    `decide`. -/
def jsTrunc (q : ℚ) : ℤ := if q < 0 then -(Rat.floor (-q)) else Rat.floor q

/-- The executable `Rat.floor` agrees with the order-theoretic `Int.floor`. -/
lemma ratFloor_eq (q : ℚ) : Rat.floor q = ⌊q⌋ := by
  rw [Rat.floor_def' q, Rat.floor_def]

lemma jsTrunc_eq (q : ℚ) : jsTrunc q = if q < 0 then -⌊-q⌋ else ⌊q⌋ := by
  unfold jsTrunc
  rw [ratFloor_eq, ratFloor_eq]

/-- The clamp `Math.max(-1, Math.min(1, s))` used before scaling. -/
def clamp (s : ℚ) : ℚ := max (-1) (min 1 s)

/-- One sample of `float32ToPCM16`: `s < 0 ? s * 0x8000 : s * 0x7FFF`,
    stored into an `Int16Array` (truncation toward zero). -/
def pcm16OfSample (s : ℚ) : ℤ :=
  jsTrunc (if clamp s < 0 then clamp s * 32768 else clamp s * 32767)

/-- `float32ToPCM16` from the worklet: clamp then scale each sample. -/
def float32ToPCM16 (xs : List ℚ) : List ℤ := xs.map pcm16OfSample

/-- `pcm16ToFloat32` from the playback service: divide each sample by 32768. -/
def pcm16ToFloat32 (xs : List ℤ) : List ℚ := xs.map (fun v => (v : ℚ) / 32768)

/-- The claim's per-sample description of `floatsToPcm16`: clamp to [-1,1],
    multiply by 32768 when the clamped value is negative and by 32767
    otherwise, truncating toward zero. -/
def pcm16SpecSample (s : ℚ) : ℤ :=
  if max (-1) (min 1 s) < 0 then jsTrunc (max (-1) (min 1 s) * 32768)
  else jsTrunc (max (-1) (min 1 s) * 32767)

lemma clamp_lower (s : ℚ) : -1 ≤ clamp s := le_max_left _ _

lemma clamp_upper (s : ℚ) : clamp s ≤ 1 := by
  unfold clamp
  apply max_le
  · norm_num
  · exact min_le_left _ _

lemma clamp_of_mem (s : ℚ) (h1 : -1 ≤ s) (h2 : s ≤ 1) : clamp s = s := by
  unfold clamp
  rw [min_eq_right h2, max_eq_right h1]

lemma pcm16OfSample_bounds (s : ℚ) :
    -32768 ≤ pcm16OfSample s ∧ pcm16OfSample s ≤ 32767 := by
  have h1 := clamp_lower s
  have h2 := clamp_upper s
  unfold pcm16OfSample
  by_cases hc : clamp s < 0
  · rw [if_pos hc, jsTrunc_eq,
      if_pos (mul_neg_of_neg_of_pos hc (by norm_num : (0:ℚ) < 32768))]
    have hub : -(clamp s * 32768) ≤ 32768 := by linarith
    have hlb : (0 : ℚ) ≤ -(clamp s * 32768) := by nlinarith
    have hfu : ⌊-(clamp s * 32768)⌋ ≤ 32768 := by
      exact_mod_cast le_trans (Int.floor_le (-(clamp s * 32768))) hub
    have hfl : (0 : ℤ) ≤ ⌊-(clamp s * 32768)⌋ :=
      Int.le_floor.mpr (by exact_mod_cast hlb)
    omega
  · have hc' : (0 : ℚ) ≤ clamp s := not_lt.mp hc
    rw [if_neg hc, jsTrunc_eq,
      if_neg (not_lt.mpr (by nlinarith : (0:ℚ) ≤ clamp s * 32767))]
    have hub : clamp s * 32767 ≤ 32767 := by nlinarith
    have hfu : ⌊clamp s * 32767⌋ ≤ 32767 := by
      exact_mod_cast le_trans (Int.floor_le (clamp s * 32767)) hub
    have hfl : (0 : ℤ) ≤ ⌊clamp s * 32767⌋ :=
      Int.le_floor.mpr (by exact_mod_cast (by nlinarith : (0:ℚ) ≤ clamp s * 32767))
    omega

/-- Claim C6: `floatsToPcm16` clamps each sample to [-1,1], multiplies by
    32768 when the clamped value is negative and by 32767 when it is zero or
    positive, truncating toward zero; it is total, and every output value is
    a genuine int16 (in [-32768, 32767]), preserving the 32768/32767
    asymmetry exactly. -/
theorem c6_floatsToPcm16_semantics (xs : List ℚ) :
    float32ToPCM16 xs = xs.map pcm16SpecSample ∧
    ∀ v ∈ float32ToPCM16 xs, -32768 ≤ v ∧ v ≤ 32767 := by
  constructor
  · unfold float32ToPCM16
    apply List.map_congr_left
    intro s _
    unfold pcm16OfSample pcm16SpecSample clamp
    rw [apply_ite jsTrunc]
  · intro v hv
    unfold float32ToPCM16 at hv
    obtain ⟨s, _, rfl⟩ := List.mem_map.mp hv
    exact pcm16OfSample_bounds s

/-- Witness for C6 at the concrete sample 3/4. -/
theorem c6_floatsToPcm16_semantics_witness :
    float32ToPCM16 [(3/4 : ℚ)] = [(3/4 : ℚ)].map pcm16SpecSample ∧
    (-32768 ≤ pcm16OfSample (3/4 : ℚ) ∧ pcm16OfSample (3/4 : ℚ) ≤ 32767) :=
  ⟨(c6_floatsToPcm16_semantics [(3/4 : ℚ)]).1,
   (c6_floatsToPcm16_semantics [(3/4 : ℚ)]).2 (pcm16OfSample (3/4 : ℚ))
     (by simp [float32ToPCM16])⟩

lemma roundtrip_sample (s : ℚ) (h1 : -1 ≤ s) (h2 : s ≤ 1) :
    |((pcm16OfSample s : ℚ) / 32768) - s| < 1 / 16384 := by
  unfold pcm16OfSample
  rw [clamp_of_mem s h1 h2]
  by_cases hs : s < 0
  · rw [if_pos hs, jsTrunc_eq,
      if_pos (mul_neg_of_neg_of_pos hs (by norm_num : (0:ℚ) < 32768))]
    have hfl : (⌊-(s * 32768)⌋ : ℚ) ≤ -(s * 32768) := Int.floor_le _
    have hfu : -(s * 32768) < ⌊-(s * 32768)⌋ + 1 := Int.lt_floor_add_one _
    rw [abs_lt]
    push_cast
    constructor <;> linarith
  · have hs' : (0 : ℚ) ≤ s := not_lt.mp hs
    rw [if_neg hs, jsTrunc_eq,
      if_neg (not_lt.mpr (by nlinarith : (0:ℚ) ≤ s * 32767))]
    have hfl : (⌊s * 32767⌋ : ℚ) ≤ s * 32767 := Int.floor_le _
    have hfu : s * 32767 < ⌊s * 32767⌋ + 1 := Int.lt_floor_add_one _
    rw [abs_lt]
    constructor <;> linarith

/-- Claim C8, corrected: the round trip `pcm16ToFloats ∘ floatsToPcm16` on
    in-range samples is within two quantization steps (strictly below
    1/16384 = 2/32768) of the input, element-wise.  One quantization step
    (1/32768) is not enough: see the counterexample. -/
theorem c8_roundtrip_amended (xs : List ℚ) (h : ∀ s ∈ xs, -1 ≤ s ∧ s ≤ 1) :
    List.Forall₂ (fun r x => |r - x| < 1 / 16384)
      (pcm16ToFloat32 (float32ToPCM16 xs)) xs := by
  induction xs with
  | nil =>
    simp only [float32ToPCM16, pcm16ToFloat32, List.map_nil]
    exact List.Forall₂.nil
  | cons x xs ih =>
    simp only [float32ToPCM16, pcm16ToFloat32, List.map_cons] at *
    refine List.Forall₂.cons ?_ ?_
    · exact roundtrip_sample x (h x (by simp)).1 (h x (by simp)).2
    · exact ih fun s hs => h s (by simp [hs])

/-- Counterexample to claim C8 as stated: at the in-range sample
    65533/65536 the round trip misses by 3/65536, which exceeds one
    quantization step 1/32768 = 2/65536. -/
theorem c8_roundtrip_counterexample :
    (-1 ≤ (65533/65536 : ℚ) ∧ (65533/65536 : ℚ) ≤ 1) ∧
    ¬ |(pcm16ToFloat32 (float32ToPCM16 [(65533/65536 : ℚ)])).getD 0 0 -
        (65533/65536 : ℚ)| ≤ 1 / 32768 := by
  refine ⟨⟨by norm_num, by norm_num⟩, ?_⟩
  have hx : pcm16OfSample (65533/65536 : ℚ) = 32765 := by
    unfold pcm16OfSample
    rw [clamp_of_mem _ (by norm_num) (by norm_num), if_neg (by norm_num),
      jsTrunc_eq, if_neg (by norm_num)]
    norm_num
  simp only [float32ToPCM16, pcm16ToFloat32, List.map_cons, List.map_nil, hx,
    List.getD_cons_zero]
  rw [abs_le]
  norm_num

/-- Witness for the amended C8 at the concrete sample 1/2. -/
theorem c8_roundtrip_amended_witness :
    (∀ s ∈ [(1/2 : ℚ)], -1 ≤ s ∧ s ≤ 1) ∧
    List.Forall₂ (fun r x => |r - x| < 1 / 16384)
      (pcm16ToFloat32 (float32ToPCM16 [(1/2 : ℚ)])) [(1/2 : ℚ)] :=
  ⟨by norm_num, c8_roundtrip_amended [(1/2 : ℚ)] (by norm_num)⟩

/- ### Capture-side resampling (pcm-recorder.worklet.js `downsample`) -/

/-- JavaScript `Math.round` on the nonnegative lengths involved here:
    floor(q + 1/2), clamped to ℕ. -/
def jsRound (q : ℚ) : ℕ := (Rat.floor (q + 1/2)).toNat

/-- `downsample` from the worklet: identity at equal rates, otherwise a
    new buffer of length `round(length/ratio)` whose entry `i` is the input
    sample at index `floor(i * ratio)` with `ratio = inputRate/targetRate`. -/
def downsample (inR tgtR : ℕ) (buffer : List ℚ) : List ℚ :=
  if inR = tgtR then buffer
  else
    (List.range (jsRound ((buffer.length : ℚ) / ((inR : ℚ) / (tgtR : ℚ))))).map
      (fun (i : ℕ) =>
        buffer.getD (Rat.floor ((i : ℚ) * ((inR : ℚ) / (tgtR : ℚ)))).toNat 0)

lemma downsample_length_ne (inR tgtR : ℕ) (buffer : List ℚ) (hne : inR ≠ tgtR) :
    (downsample inR tgtR buffer).length =
      jsRound ((buffer.length : ℚ) / ((inR : ℚ) / (tgtR : ℚ))) := by
  unfold downsample
  rw [if_neg hne]
  simp

lemma downsample_index_lt (len i inR tgtR : ℕ) (htgt : 0 < tgtR) (hlt : tgtR < inR)
    (hi : i < jsRound ((len : ℚ) / ((inR : ℚ) / (tgtR : ℚ)))) :
    (Rat.floor ((i : ℚ) * ((inR : ℚ) / (tgtR : ℚ)))).toNat < len := by
  have htq : (0 : ℚ) < (tgtR : ℚ) := by exact_mod_cast htgt
  have hiq : (tgtR : ℚ) < (inR : ℚ) := by exact_mod_cast hlt
  have hρpos : (0 : ℚ) < (inR : ℚ) / (tgtR : ℚ) := div_pos (lt_trans htq hiq) htq
  have hρ1 : 1 < (inR : ℚ) / (tgtR : ℚ) := (one_lt_div htq).mpr hiq
  have harg : (0 : ℚ) ≤ (len : ℚ) / ((inR : ℚ) / (tgtR : ℚ)) + 1/2 := by positivity
  have hfnn : 0 ≤ ⌊(len : ℚ) / ((inR : ℚ) / (tgtR : ℚ)) + 1/2⌋ :=
    Int.floor_nonneg.mpr harg
  have hcast1 : ((jsRound ((len : ℚ) / ((inR : ℚ) / (tgtR : ℚ))) : ℕ) : ℤ) =
      ⌊(len : ℚ) / ((inR : ℚ) / (tgtR : ℚ)) + 1/2⌋ := by
    unfold jsRound
    rw [ratFloor_eq]
    exact Int.toNat_of_nonneg hfnn
  have hncast : ((jsRound ((len : ℚ) / ((inR : ℚ) / (tgtR : ℚ))) : ℕ) : ℚ) ≤
      (len : ℚ) / ((inR : ℚ) / (tgtR : ℚ)) + 1/2 := by
    have h2 : ((jsRound ((len : ℚ) / ((inR : ℚ) / (tgtR : ℚ))) : ℕ) : ℚ) =
        ((⌊(len : ℚ) / ((inR : ℚ) / (tgtR : ℚ)) + 1/2⌋ : ℤ) : ℚ) := by
      exact_mod_cast hcast1
    rw [h2]
    exact Int.floor_le _
  have hi' : (i : ℚ) + 1 ≤ ((jsRound ((len : ℚ) / ((inR : ℚ) / (tgtR : ℚ))) : ℕ) : ℚ) := by
    exact_mod_cast Nat.succ_le_of_lt hi
  have hile : (i : ℚ) ≤ (len : ℚ) / ((inR : ℚ) / (tgtR : ℚ)) - 1/2 := by linarith
  have hprod : (i : ℚ) * ((inR : ℚ) / (tgtR : ℚ)) ≤
      (len : ℚ) - ((inR : ℚ) / (tgtR : ℚ)) / 2 := by
    have h7 := mul_le_mul_of_nonneg_right hile (le_of_lt hρpos)
    calc (i : ℚ) * ((inR : ℚ) / (tgtR : ℚ)) ≤
        ((len : ℚ) / ((inR : ℚ) / (tgtR : ℚ)) - 1/2) * ((inR : ℚ) / (tgtR : ℚ)) := h7
      _ = (len : ℚ) - ((inR : ℚ) / (tgtR : ℚ)) / 2 := by
          rw [sub_mul, div_mul_cancel₀ _ (ne_of_gt hρpos)]
          ring
  have hfl : ⌊(i : ℚ) * ((inR : ℚ) / (tgtR : ℚ))⌋ < (len : ℤ) := by
    apply Int.floor_lt.mpr
    push_cast
    linarith
  have hfnn2 : 0 ≤ ⌊(i : ℚ) * ((inR : ℚ) / (tgtR : ℚ))⌋ :=
    Int.floor_nonneg.mpr (by positivity)
  rw [ratFloor_eq]
  omega

/-- Claim C7: `downsample` is the identity when the source rate equals the
    target rate; otherwise output index `i` takes the input sample at index
    `floor(i * sourceRate / targetRate)`, and under genuine downsampling
    (0 < target < source) that index is always within the input buffer. -/
theorem c7_resample_policy (inR tgtR : ℕ) (buf : List ℚ) :
    (inR = tgtR → downsample inR tgtR buf = buf) ∧
    (inR ≠ tgtR → ∀ i, i < (downsample inR tgtR buf).length →
      (downsample inR tgtR buf).getD i 0 =
        buf.getD (⌊(i : ℚ) * (inR : ℚ) / (tgtR : ℚ)⌋).toNat 0) ∧
    (0 < tgtR → tgtR < inR → ∀ i, i < (downsample inR tgtR buf).length →
      (⌊(i : ℚ) * (inR : ℚ) / (tgtR : ℚ)⌋).toNat < buf.length) := by
  refine ⟨fun h => ?_, fun hne i hi => ?_, fun htgt hlt i hi => ?_⟩
  · unfold downsample
    rw [if_pos h]
  · have hn := downsample_length_ne inR tgtR buf hne
    rw [hn] at hi
    unfold downsample
    rw [if_neg hne]
    rw [List.getD_eq_getElem?_getD, List.getElem?_map, List.getElem?_range hi]
    simp only [Option.map_some', Option.getD_some]
    rw [ratFloor_eq, mul_div_assoc]
  · have hne : inR ≠ tgtR := by omega
    have hn := downsample_length_ne inR tgtR buf hne
    rw [hn] at hi
    have h3 := downsample_index_lt buf.length i inR tgtR htgt hlt hi
    rw [ratFloor_eq, ← mul_div_assoc] at h3
    exact h3

/-- Witness for C7: identity at 16000/16000, and at 48000/16000 on a
    six-sample buffer output index 1 reads input index 3. -/
theorem c7_resample_policy_witness :
    downsample 16000 16000 [(1:ℚ), 2] = [(1:ℚ), 2] ∧
    (downsample 48000 16000 [(1:ℚ), 2, 3, 4, 5, 6]).getD 1 0 =
      [(1:ℚ), 2, 3, 4, 5, 6].getD (⌊((1:ℕ) : ℚ) * (48000 : ℚ) / (16000 : ℚ)⌋).toNat 0 ∧
    (⌊((1:ℕ) : ℚ) * (48000 : ℚ) / (16000 : ℚ)⌋).toNat <
      ([(1:ℚ), 2, 3, 4, 5, 6] : List ℚ).length := by
  have hlen : (downsample 48000 16000 [(1:ℚ), 2, 3, 4, 5, 6]).length = 2 := by
    rw [downsample_length_ne _ _ _ (by omega)]
    unfold jsRound
    rw [ratFloor_eq]
    norm_num
    decide
  refine ⟨(c7_resample_policy 16000 16000 [(1:ℚ), 2]).1 rfl,
    (c7_resample_policy 48000 16000 [(1:ℚ), 2, 3, 4, 5, 6]).2.1 (by omega) 1 ?_,
    (c7_resample_policy 48000 16000 [(1:ℚ), 2, 3, 4, 5, 6]).2.2 (by omega) (by omega) 1 ?_⟩
  · rw [hlen]
    omega
  · rw [hlen]
    omega

/- ### Capture pipeline framing (pcm-recorder.worklet.js `process`) -/

/-- The hard-coded frame size `this.bufferSize = 4096` of the worklet. -/
def bufferSize : ℕ := 4096

/-- The per-frame conversion chain of `process`: resample then encode. -/
def convertFrame (inR tgtR : ℕ) (frame : List ℚ) : List ℤ :=
  float32ToPCM16 (downsample inR tgtR frame)

/-- The worklet's while-loop: repeatedly slice a full frame off the front of
    the backlog while at least `F` samples are buffered; returns the
    remaining backlog and the raw slices in emission order. -/
def drainSlices (F : ℕ) (buf : List ℚ) : List ℚ × List (List ℚ) :=
  if _h : 0 < F ∧ F ≤ buf.length then
    ((drainSlices F (buf.drop F)).1, buf.take F :: (drainSlices F (buf.drop F)).2)
  else (buf, [])
termination_by buf.length
decreasing_by
  simp only [List.length_drop]
  omega

/-- One `process` call: append the incoming block to the backlog, then
    drain full frames through the conversion chain. -/
def processBlock (inR tgtR F : ℕ) (buf block : List ℚ) : List ℚ × List (List ℤ) :=
  ((drainSlices F (buf ++ block)).1,
   (drainSlices F (buf ++ block)).2.map (convertFrame inR tgtR))

/-- Feeding a sequence of raw blocks through successive `process` calls,
    collecting every emitted frame in order. -/
def runCapture (inR tgtR F : ℕ) : List (List ℚ) → List ℚ → List ℚ × List (List ℤ)
  | [], buf => (buf, [])
  | b :: bs, buf =>
    ((runCapture inR tgtR F bs (processBlock inR tgtR F buf b).1).1,
     (processBlock inR tgtR F buf b).2 ++
       (runCapture inR tgtR F bs (processBlock inR tgtR F buf b).1).2)

lemma drainSlices_stop (F : ℕ) (buf : List ℚ) (h : ¬(0 < F ∧ F ≤ buf.length)) :
    drainSlices F buf = (buf, []) := by
  rw [drainSlices, dif_neg h]

lemma drainSlices_go (F : ℕ) (buf : List ℚ) (h0 : 0 < F) (hF : F ≤ buf.length) :
    drainSlices F buf =
      ((drainSlices F (buf.drop F)).1,
       buf.take F :: (drainSlices F (buf.drop F)).2) := by
  conv_lhs => rw [drainSlices]
  rw [dif_pos ⟨h0, hF⟩]

lemma drainSlices_spec_aux (F : ℕ) (hF : 0 < F) :
    ∀ (n : ℕ) (buf : List ℚ), buf.length ≤ n →
      (drainSlices F buf).2.flatten ++ (drainSlices F buf).1 = buf ∧
      (drainSlices F buf).1.length < F ∧
      ∀ s ∈ (drainSlices F buf).2, s.length = F := by
  intro n
  induction n with
  | zero =>
    intro buf hb
    rw [drainSlices_stop F buf (by omega)]
    exact ⟨by simp, by simpa using (show buf.length < F by omega), by simp⟩
  | succ n ih =>
    intro buf hb
    by_cases hc : F ≤ buf.length
    · rw [drainSlices_go F buf hF hc]
      have hdrop : (buf.drop F).length ≤ n := by
        simp only [List.length_drop]
        omega
      obtain ⟨h1, h2, h3⟩ := ih (buf.drop F) hdrop
      refine ⟨?_, h2, ?_⟩
      · rw [List.flatten_cons, List.append_assoc, h1, List.take_append_drop]
      · intro s hs
        rcases List.mem_cons.mp hs with hs | hs
        · rw [hs, List.length_take]
          omega
        · exact h3 s hs
    · rw [drainSlices_stop F buf (by omega)]
      exact ⟨by simp, by simpa using (show buf.length < F by omega), by simp⟩

lemma drainSlices_spec (F : ℕ) (hF : 0 < F) (buf : List ℚ) :
    (drainSlices F buf).2.flatten ++ (drainSlices F buf).1 = buf ∧
    (drainSlices F buf).1.length < F ∧
    ∀ s ∈ (drainSlices F buf).2, s.length = F :=
  drainSlices_spec_aux F hF buf.length buf le_rfl

lemma drainSlices_cons_full (F : ℕ) (hF : 0 < F) (s t : List ℚ)
    (hs : s.length = F) :
    drainSlices F (s ++ t) = ((drainSlices F t).1, s :: (drainSlices F t).2) := by
  subst hs
  rw [drainSlices_go _ (s ++ t) hF (by simp)]
  rw [List.take_left, List.drop_left]

lemma drainSlices_join_left (F : ℕ) (hF : 0 < F) (ss : List (List ℚ))
    (z : List ℚ) (hss : ∀ s ∈ ss, s.length = F) :
    drainSlices F (ss.flatten ++ z) =
      ((drainSlices F z).1, ss ++ (drainSlices F z).2) := by
  induction ss with
  | nil => simp
  | cons s ss ih =>
    rw [List.flatten_cons, List.append_assoc,
      drainSlices_cons_full F hF s _ (hss s (List.mem_cons_self s ss)),
      ih (fun a ha => hss a (List.mem_cons_of_mem s ha))]
    simp

lemma runCapture_eq_drain (inR tgtR F : ℕ) (hF : 0 < F) :
    ∀ (blocks : List (List ℚ)) (buf : List ℚ), buf.length < F →
      runCapture inR tgtR F blocks buf =
        ((drainSlices F (buf ++ blocks.flatten)).1,
         (drainSlices F (buf ++ blocks.flatten)).2.map (convertFrame inR tgtR)) := by
  intro blocks
  induction blocks with
  | nil =>
    intro buf hb
    rw [runCapture]
    rw [List.flatten_nil, List.append_nil, drainSlices_stop F buf (by omega)]
    simp
  | cons b bs ih =>
    intro buf hb
    obtain ⟨h1, h2, h3⟩ := drainSlices_spec F hF (buf ++ b)
    have hrec := ih (drainSlices F (buf ++ b)).1 h2
    have hjoin : buf ++ (b :: bs).flatten =
        (drainSlices F (buf ++ b)).2.flatten ++ ((drainSlices F (buf ++ b)).1 ++ bs.flatten) := by
      rw [List.flatten_cons, ← List.append_assoc, ← List.append_assoc, h1]
    rw [runCapture]
    unfold processBlock
    rw [hrec, hjoin, drainSlices_join_left F hF _ _ h3]
    simp [List.map_append]

lemma drainSlices_windows (F : ℕ) (hF : 0 < F) :
    ∀ (k : ℕ) (r : ℕ) (buf : List ℚ), buf.length = k * F + r → r < F →
      drainSlices F buf =
        (buf.drop (k * F),
         (List.range k).map (fun i => (buf.drop (i * F)).take F)) := by
  intro k
  induction k with
  | zero =>
    intro r buf hlen hr
    rw [drainSlices_stop F buf (by omega)]
    simp
  | succ k ih =>
    intro r buf hlen hr
    have hsm : (k + 1) * F = k * F + F := Nat.succ_mul k F
    have hFle : F ≤ buf.length := by omega
    rw [drainSlices_go F buf hF hFle]
    have hdlen : (buf.drop F).length = k * F + r := by
      simp only [List.length_drop]
      omega
    rw [ih r (buf.drop F) hdlen hr]
    simp only [Prod.mk.injEq]
    refine ⟨?_, ?_⟩
    · rw [List.drop_drop]
      congr 1
      omega
    · rw [List.range_succ_eq_map, List.map_cons, List.map_map, Nat.zero_mul,
        List.drop_zero]
      congr 1
      apply List.map_congr_left
      intro i _
      simp only [Function.comp_apply]
      rw [List.drop_drop, Nat.succ_mul, Nat.add_comm F (i * F)]

/-- Claim C3: with the deployed configuration (source rate = target rate,
    frame size 4096), feeding raw blocks whose total length is
    `k * 4096 + r` with `r < 4096` emits exactly `k` frames, each the
    encoding of the corresponding consecutive 4096-sample window in arrival
    order, each of the configured frame size; the trailing `r` samples are
    retained in the backlog, never dropped and never emitted early. -/
theorem c3_frame_emission (rate : ℕ) (blocks : List (List ℚ)) (k r : ℕ)
    (hlen : blocks.flatten.length = k * bufferSize + r) (hr : r < bufferSize) :
    bufferSize = 4096 ∧
    (runCapture rate rate bufferSize blocks []).2.length = k ∧
    (runCapture rate rate bufferSize blocks []).2 =
      (List.range k).map
        (fun i => float32ToPCM16 ((blocks.flatten.drop (i * bufferSize)).take bufferSize)) ∧
    (∀ f ∈ (runCapture rate rate bufferSize blocks []).2, f.length = bufferSize) ∧
    (runCapture rate rate bufferSize blocks []).1 =
      blocks.flatten.drop (k * bufferSize) := by
  have hF : 0 < bufferSize := by norm_num [bufferSize]
  have hconv : ∀ frame, convertFrame rate rate frame = float32ToPCM16 frame := by
    intro frame
    unfold convertFrame downsample
    rw [if_pos rfl]
  have hrun := runCapture_eq_drain rate rate bufferSize hF blocks [] (by simpa using hF)
  rw [List.nil_append] at hrun
  rw [drainSlices_windows bufferSize hF k r blocks.flatten hlen hr] at hrun
  have hslice : ∀ i, i < k →
      ((blocks.flatten.drop (i * bufferSize)).take bufferSize).length = bufferSize := by
    intro i hik
    have hmul : (i + 1) * bufferSize ≤ k * bufferSize :=
      Nat.mul_le_mul_right bufferSize (Nat.succ_le_of_lt hik)
    have hsm : (i + 1) * bufferSize = i * bufferSize + bufferSize := Nat.succ_mul i bufferSize
    simp only [List.length_take, List.length_drop]
    omega
  refine ⟨rfl, ?_, ?_, ?_, ?_⟩
  · rw [hrun]
    simp
  · rw [hrun]
    simp only [List.map_map]
    apply List.map_congr_left
    intro i _
    simp [hconv]
  · intro f hf
    rw [hrun] at hf
    simp only [List.map_map, List.mem_map, List.mem_range] at hf
    obtain ⟨i, hik, rfl⟩ := hf
    simp only [Function.comp_apply, hconv]
    unfold float32ToPCM16
    rw [List.length_map]
    exact hslice i hik
  · rw [hrun]

/-- Witness for C3 with the empty block sequence (k = 0, r = 0). -/
theorem c3_frame_emission_witness :
    ([] : List (List ℚ)).flatten.length = 0 * bufferSize + 0 ∧
    (runCapture 16000 16000 bufferSize [] []).2.length = 0 ∧
    (runCapture 16000 16000 bufferSize [] []).1 =
      ([] : List (List ℚ)).flatten.drop (0 * bufferSize) :=
  ⟨by simp,
   (c3_frame_emission 16000 [] 0 0 (by simp) (by norm_num [bufferSize])).2.1,
   (c3_frame_emission 16000 [] 0 0 (by simp) (by norm_num [bufferSize])).2.2.2.2⟩

/- ### Playback queue (gemini-audio.service.ts) -/

/-- A rendered Web Audio buffer: decoded samples plus the rate passed to
    `audioContext.createBuffer`. -/
structure AudioBuffer where
  samples : List ℚ
  sampleRate : ℕ
  deriving DecidableEq

/-- An encoded chunk on the transport: decoded PCM16 payload plus the
    MIME-style tag. -/
structure AudioChunk where
  data : List ℤ
  mimeType : String
  deriving DecidableEq

/-- `createAudioBufferFromPCM`: decode PCM16 to floats and tag the buffer
    with the given sample rate. -/
def createAudioBufferFromPCM (pcm : List ℤ) (rate : ℕ) : AudioBuffer :=
  ⟨pcm16ToFloat32 pcm, rate⟩

/-- Observable playback events: a chunk starts sounding (with the rendered
    buffer), a sounding chunk ends, or rendering a chunk fails. -/
inductive PlayEvent where
  | started (pcm : List ℤ) (buf : AudioBuffer)
  | ended (pcm : List ℤ)
  | playbackError (pcm : List ℤ)
  deriving DecidableEq

/-- The queue state: pending decoded chunks, the `isPlayingFromQueue` flag,
    and the chunk currently sounding (between `source.start()` and its
    `onended`). -/
structure PlaybackState where
  playQueue : List (List ℤ)
  isPlayingFromQueue : Bool
  sounding : Option (List ℤ)
  deriving DecidableEq

/-- Fresh service state: empty queue, not playing. -/
def pInit : PlaybackState := ⟨[], false, none⟩

/-- `playNextInQueue`, with a failure oracle for `source.start()`: an empty
    queue goes idle; a failing head is reported and the method recurses to
    the next chunk; otherwise the head starts sounding, rendered at the
    hard-coded 24000 Hz. -/
def playNextAux (fails : List ℤ → Bool) :
    List (List ℤ) → Option (List ℤ) → PlaybackState × List PlayEvent
  | [], snd => (⟨[], false, snd⟩, [])
  | h :: t, snd =>
    if fails h then
      ((playNextAux fails t snd).1,
       PlayEvent.playbackError h :: (playNextAux fails t snd).2)
    else
      (⟨t, true, some h⟩, [PlayEvent.started h (createAudioBufferFromPCM h 24000)])

def playNextInQueue (fails : List ℤ → Bool) (st : PlaybackState) :
    PlaybackState × List PlayEvent :=
  playNextAux fails st.playQueue st.sounding

/-- `playAudioChunk`: push the decoded chunk onto the queue tail; start the
    queue only when nothing is being played from it. -/
def playAudioChunk (fails : List ℤ → Bool) (c : AudioChunk) (st : PlaybackState) :
    PlaybackState × List PlayEvent :=
  if st.isPlayingFromQueue then
    (⟨st.playQueue ++ [c.data], st.isPlayingFromQueue, st.sounding⟩, [])
  else
    playNextInQueue fails ⟨st.playQueue ++ [c.data], st.isPlayingFromQueue, st.sounding⟩

/-- The `onended` callback: the sounding chunk finishes, then
    `playNextInQueue` runs again. -/
def handleEnded (fails : List ℤ → Bool) (st : PlaybackState) :
    PlaybackState × List PlayEvent :=
  match st.sounding with
  | none => (st, [])
  | some h =>
    ((playNextInQueue fails ⟨st.playQueue, st.isPlayingFromQueue, none⟩).1,
     PlayEvent.ended h ::
       (playNextInQueue fails ⟨st.playQueue, st.isPlayingFromQueue, none⟩).2)

/-- External stimuli: a chunk arrives over the socket, or the currently
    sounding chunk completes. -/
inductive PInput where
  | enq (c : AudioChunk)
  | ended
  deriving DecidableEq

def pstep (fails : List ℤ → Bool) (st : PlaybackState) :
    PInput → PlaybackState × List PlayEvent
  | PInput.enq c => playAudioChunk fails c st
  | PInput.ended => handleEnded fails st

def prun (fails : List ℤ → Bool) :
    List PInput → PlaybackState → PlaybackState × List PlayEvent
  | [], st => (st, [])
  | i :: is, st =>
    ((prun fails is (pstep fails st i).1).1,
     (pstep fails st i).2 ++ (prun fails is (pstep fails st i).1).2)

/-- The oracle for runs in which every chunk renders successfully. -/
def noFail : List ℤ → Bool := fun _ => false

def enqueuedPcms : List PInput → List (List ℤ)
  | [] => []
  | PInput.enq c :: r => c.data :: enqueuedPcms r
  | PInput.ended :: r => enqueuedPcms r

def startedPcms : List PlayEvent → List (List ℤ)
  | [] => []
  | PlayEvent.started p _ :: r => p :: startedPcms r
  | PlayEvent.ended _ :: r => startedPcms r
  | PlayEvent.playbackError _ :: r => startedPcms r

def isStartedEv : PlayEvent → Bool
  | PlayEvent.started _ _ => true
  | _ => false

def isEndedEv : PlayEvent → Bool
  | PlayEvent.ended _ => true
  | _ => false

/-- Claim C9: when rendering the dequeued head fails, the failure is
    reported as a non-fatal playback-error event and `playNext` still runs,
    so the queue advances; in particular one corrupt chunk followed by a
    playable one yields the error and then the playable chunk starts. -/
theorem c9_playback_failure_advances (fails : List ℤ → Bool) (bad : List ℤ)
    (q : List (List ℤ)) (p : Bool) (snd : Option (List ℤ))
    (hbad : fails bad = true) :
    (playNextInQueue fails ⟨bad :: q, p, snd⟩ =
      ((playNextInQueue fails ⟨q, true, snd⟩).1,
       PlayEvent.playbackError bad :: (playNextInQueue fails ⟨q, true, snd⟩).2)) ∧
    (∀ good rest, fails good = false →
      playNextInQueue fails ⟨bad :: good :: rest, p, snd⟩ =
        (⟨rest, true, some good⟩,
         [PlayEvent.playbackError bad,
          PlayEvent.started good (createAudioBufferFromPCM good 24000)])) := by
  constructor
  · simp [playNextInQueue, playNextAux, hbad]
  · intro good rest hgood
    simp [playNextInQueue, playNextAux, hbad, hgood]

/-- Witness for C9: chunk [9] fails, chunk [1] then starts. -/
theorem c9_playback_failure_advances_witness :
    ((fun l => decide (l = ([9] : List ℤ))) [9] = true) ∧
    ((fun l => decide (l = ([9] : List ℤ))) [1] = false) ∧
    playNextInQueue (fun l => decide (l = ([9] : List ℤ))) ⟨[[9], [1]], false, none⟩ =
      (⟨[], true, some [1]⟩,
       [PlayEvent.playbackError [9],
        PlayEvent.started [1] (createAudioBufferFromPCM [1] 24000)]) :=
  ⟨by decide, by decide,
   (c9_playback_failure_advances (fun l => decide (l = ([9] : List ℤ)))
     [9] [[1]] false none (by decide)).2 [1] [] (by decide)⟩

lemma playNextAux_started_buf (fails : List ℤ → Bool) (q : List (List ℤ)) :
    ∀ (snd : Option (List ℤ)) (pcm : List ℤ) (buf : AudioBuffer),
      PlayEvent.started pcm buf ∈ (playNextAux fails q snd).2 →
      buf = createAudioBufferFromPCM pcm 24000 := by
  induction q with
  | nil =>
    intro snd pcm buf hm
    simp [playNextAux] at hm
  | cons h t ih =>
    intro snd pcm buf hm
    by_cases hf : fails h
    · simp only [playNextAux, hf, if_true] at hm
      rcases List.mem_cons.mp hm with he | hm'
      · exact absurd he (by simp)
      · exact ih snd pcm buf hm'
    · simp only [playNextAux, hf, if_false, Bool.false_eq_true,
        List.mem_singleton] at hm
      rcases hm with ⟨rfl, rfl⟩
      rfl

lemma pstep_started_buf (fails : List ℤ → Bool) (st : PlaybackState) (i : PInput)
    (pcm : List ℤ) (buf : AudioBuffer)
    (hm : PlayEvent.started pcm buf ∈ (pstep fails st i).2) :
    buf = createAudioBufferFromPCM pcm 24000 := by
  cases i with
  | enq c =>
    simp only [pstep, playAudioChunk] at hm
    by_cases hp : st.isPlayingFromQueue
    · simp [hp] at hm
    · simp only [hp, if_false, Bool.false_eq_true, playNextInQueue] at hm
      exact playNextAux_started_buf fails _ _ pcm buf hm
  | ended =>
    simp only [pstep, handleEnded] at hm
    cases hsnd : st.sounding with
    | none => simp [hsnd] at hm
    | some h =>
      simp only [hsnd, playNextInQueue] at hm
      rcases List.mem_cons.mp hm with he | hm'
      · exact absurd he (by simp)
      · exact playNextAux_started_buf fails _ _ pcm buf hm'

lemma prun_started_buf (fails : List ℤ → Bool) (inputs : List PInput) :
    ∀ (st : PlaybackState) (pcm : List ℤ) (buf : AudioBuffer),
      PlayEvent.started pcm buf ∈ (prun fails inputs st).2 →
      buf = createAudioBufferFromPCM pcm 24000 := by
  induction inputs with
  | nil =>
    intro st pcm buf hm
    simp [prun] at hm
  | cons i is ih =>
    intro st pcm buf hm
    rw [prun] at hm
    rcases List.mem_append.mp hm with hm' | hm'
    · exact pstep_started_buf fails st i pcm buf hm'
    · exact ih _ pcm buf hm'

/-- The chunk message built by the recording callback: base64 payload plus
    the MIME tag carrying the capture SAMPLE_RATE of 16000. -/
def captureChunk (frame : List ℤ) : AudioChunk :=
  ⟨frame, "audio/pcm;rate=" ++ Nat.repr 16000⟩

/-- Claim C10: on the playback path every started chunk is rendered through
    `createAudioBufferFromPCM` at the hard-coded 24000 Hz; the chunk's
    mimeType is never read during playback (chunks equal in data play
    identically); yet the capture side tags every emitted chunk with
    rate=16000. -/
theorem c10_playback_rate_hardcoded :
    (∀ (fails : List ℤ → Bool) (inputs : List PInput) (pcm : List ℤ)
        (buf : AudioBuffer),
      PlayEvent.started pcm buf ∈ (prun fails inputs pInit).2 →
      buf = createAudioBufferFromPCM pcm 24000 ∧ buf.sampleRate = 24000) ∧
    (∀ (fails : List ℤ → Bool) (c c' : AudioChunk) (st : PlaybackState),
      c.data = c'.data → playAudioChunk fails c st = playAudioChunk fails c' st) ∧
    (∀ frame : List ℤ, (captureChunk frame).mimeType = "audio/pcm;rate=16000") := by
  refine ⟨?_, ?_, ?_⟩
  · intro fails inputs pcm buf hm
    have hb := prun_started_buf fails inputs pInit pcm buf hm
    exact ⟨hb, by rw [hb]; rfl⟩
  · intro fails c c' st h
    simp [playAudioChunk, h]
  · intro frame
    rfl

/-- Witness for C10: a single enqueued chunk starts at 24000 Hz; two chunks
    differing only in mimeType behave identically; a capture frame is
    tagged rate=16000. -/
theorem c10_playback_rate_hardcoded_witness :
    (createAudioBufferFromPCM [5] 24000 = createAudioBufferFromPCM [5] 24000 ∧
     (createAudioBufferFromPCM [5] 24000).sampleRate = 24000) ∧
    playAudioChunk noFail ⟨[3], "a"⟩ pInit = playAudioChunk noFail ⟨[3], "b"⟩ pInit ∧
    (captureChunk [7]).mimeType = "audio/pcm;rate=16000" :=
  ⟨c10_playback_rate_hardcoded.1 noFail [PInput.enq ⟨[5], "x"⟩] [5]
      (createAudioBufferFromPCM [5] 24000)
      (by simp [prun, pstep, playAudioChunk, playNextInQueue, playNextAux,
        pInit, noFail]),
   c10_playback_rate_hardcoded.2.1 noFail ⟨[3], "a"⟩ ⟨[3], "b"⟩ pInit rfl,
   c10_playback_rate_hardcoded.2.2 [7]⟩

/-- Start/end nesting automaton over the event trace: at most one chunk
    sounds at a time, a start needs depth 0, an end needs depth 1. -/
def nesting : ℕ → List PlayEvent → Option ℕ
  | n, [] => some n
  | n, PlayEvent.started _ _ :: r => if n = 0 then nesting 1 r else none
  | n, PlayEvent.ended _ :: r => if n = 1 then nesting 0 r else none
  | n, PlayEvent.playbackError _ :: r => nesting n r

/-- One when a chunk is currently sounding, else zero. -/
def soundN (st : PlaybackState) : ℕ := if st.sounding.isSome then 1 else 0

lemma nesting_append (a b : List PlayEvent) :
    ∀ n, nesting n (a ++ b) = (nesting n a).bind (fun m => nesting m b) := by
  induction a with
  | nil => intro n; simp [nesting]
  | cons e r ih =>
    intro n
    cases e with
    | started p buf =>
      by_cases h : n = 0
      · simp [nesting, h, ih]
      · simp [nesting, h]
    | ended p =>
      by_cases h : n = 1
      · simp [nesting, h, ih]
      · simp [nesting, h]
    | playbackError p =>
      simp [nesting, ih]

lemma nesting_count (l : List PlayEvent) :
    ∀ (i m : ℕ), nesting i l = some m →
      List.countP isStartedEv l + i = List.countP isEndedEv l + m := by
  induction l with
  | nil =>
    intro i m h
    simp only [nesting, Option.some.injEq] at h
    simp [h]
  | cons e r ih =>
    intro i m h
    cases e with
    | started p buf =>
      simp only [nesting] at h
      by_cases hi : i = 0
      · subst hi
        rw [if_pos rfl] at h
        have h2 := ih 1 m h
        simp [List.countP_cons, isStartedEv, isEndedEv]
        omega
      · rw [if_neg hi] at h
        exact absurd h (by simp)
    | ended p =>
      simp only [nesting] at h
      by_cases hi : i = 1
      · subst hi
        rw [if_pos rfl] at h
        have h2 := ih 0 m h
        simp [List.countP_cons, isStartedEv, isEndedEv]
        omega
      · rw [if_neg hi] at h
        exact absurd h (by simp)
    | playbackError p =>
      simp only [nesting] at h
      have h2 := ih i m h
      simp [List.countP_cons, isStartedEv, isEndedEv]
      omega

lemma startedPcms_append (a b : List PlayEvent) :
    startedPcms (a ++ b) = startedPcms a ++ startedPcms b := by
  induction a with
  | nil => simp [startedPcms]
  | cons e r ih =>
    cases e <;> simp [startedPcms, ih]

lemma enqueuedPcms_cons (i : PInput) (is : List PInput) :
    enqueuedPcms (i :: is) = enqueuedPcms [i] ++ enqueuedPcms is := by
  cases i <;> simp [enqueuedPcms]

lemma pstep_inv (st : PlaybackState) (i : PInput)
    (hps : st.isPlayingFromQueue = st.sounding.isSome) :
    ((pstep noFail st i).1.isPlayingFromQueue =
      (pstep noFail st i).1.sounding.isSome) ∧
    (startedPcms (pstep noFail st i).2 ++ (pstep noFail st i).1.playQueue =
      st.playQueue ++ enqueuedPcms [i]) ∧
    (nesting (soundN st) (pstep noFail st i).2 = some (soundN (pstep noFail st i).1)) := by
  cases i with
  | enq c =>
    cases hp : st.isPlayingFromQueue with
    | true =>
      refine ⟨?_, ?_, ?_⟩
      · simpa [pstep, playAudioChunk, hp] using hps
      · simp [pstep, playAudioChunk, hp, startedPcms, enqueuedPcms]
      · simp [pstep, playAudioChunk, hp, nesting, soundN]
    | false =>
      have hsnd : st.sounding = none := by
        cases hso : st.sounding with
        | none => rfl
        | some v =>
          rw [hp, hso] at hps
          simp at hps
      cases hq : st.playQueue with
      | nil =>
        simp [pstep, playAudioChunk, hp, hq, hsnd, playNextInQueue, playNextAux,
          noFail, startedPcms, enqueuedPcms, nesting, soundN]
      | cons h t =>
        simp [pstep, playAudioChunk, hp, hq, hsnd, playNextInQueue, playNextAux,
          noFail, startedPcms, enqueuedPcms, nesting, soundN]
  | ended =>
    cases hsnd : st.sounding with
    | none =>
      simp [pstep, handleEnded, hsnd, hps, startedPcms, enqueuedPcms, nesting, soundN]
    | some h =>
      cases hq : st.playQueue with
      | nil =>
        simp [pstep, handleEnded, hsnd, hq, playNextInQueue, playNextAux,
          startedPcms, enqueuedPcms, nesting, soundN]
      | cons h' t =>
        simp [pstep, handleEnded, hsnd, hq, playNextInQueue, playNextAux,
          noFail, startedPcms, enqueuedPcms, nesting, soundN]

lemma prun_inv (inputs : List PInput) :
    ∀ (st : PlaybackState), st.isPlayingFromQueue = st.sounding.isSome →
      ((prun noFail inputs st).1.isPlayingFromQueue =
        (prun noFail inputs st).1.sounding.isSome) ∧
      (startedPcms (prun noFail inputs st).2 ++ (prun noFail inputs st).1.playQueue =
        st.playQueue ++ enqueuedPcms inputs) ∧
      (nesting (soundN st) (prun noFail inputs st).2 =
        some (soundN (prun noFail inputs st).1)) := by
  induction inputs with
  | nil =>
    intro st hps
    refine ⟨hps, ?_, rfl⟩
    simp [prun, startedPcms, enqueuedPcms]
  | cons i is ih =>
    intro st hps
    obtain ⟨s1, s2, s3⟩ := pstep_inv st i hps
    obtain ⟨r1, r2, r3⟩ := ih (pstep noFail st i).1 s1
    rw [prun]
    refine ⟨r1, ?_, ?_⟩
    · rw [startedPcms_append, List.append_assoc, r2, ← List.append_assoc, s2,
        List.append_assoc, ← enqueuedPcms_cons]
    · rw [nesting_append, s3, Option.some_bind, r3]

/-- Claim C4: playback is strictly FIFO — the chunks that have started
    playing form a prefix of the chunks enqueued, in order; every start
    event is preceded by as many completions as starts (so a chunk starts
    only after the previous one finished, and at most one chunk sounds at
    any instant); and enqueueing while playback is in progress only appends
    to the queue tail, emitting no event and starting nothing. -/
theorem c4_playback_fifo (inputs : List PInput) :
    (∃ t, enqueuedPcms inputs = startedPcms (prun noFail inputs pInit).2 ++ t) ∧
    (∀ pre pcm buf post,
      (prun noFail inputs pInit).2 = pre ++ PlayEvent.started pcm buf :: post →
      List.countP isStartedEv pre = List.countP isEndedEv pre) ∧
    (∀ (fails : List ℤ → Bool) (c : AudioChunk) (st : PlaybackState),
      st.isPlayingFromQueue = true →
      playAudioChunk fails c st =
        (⟨st.playQueue ++ [c.data], true, st.sounding⟩, [])) := by
  obtain ⟨h1, h2, h3⟩ := prun_inv inputs pInit rfl
  refine ⟨⟨(prun noFail inputs pInit).1.playQueue, ?_⟩, ?_, ?_⟩
  · have h2' : startedPcms (prun noFail inputs pInit).2 ++
        (prun noFail inputs pInit).1.playQueue = enqueuedPcms inputs := by
      simpa [pInit] using h2
    exact h2'.symm
  · intro pre pcm buf post heq
    rw [heq, nesting_append] at h3
    cases hpre : nesting (soundN pInit) pre with
    | none =>
      rw [hpre] at h3
      exact absurd h3 (by simp)
    | some m =>
      rw [hpre] at h3
      simp only [Option.some_bind, nesting] at h3
      by_cases hm : m = 0
      · subst hm
        have := nesting_count pre (soundN pInit) 0 hpre
        simp only [soundN, pInit, Option.isSome_none, Bool.false_eq_true,
          if_false] at this ⊢
        omega
      · rw [if_neg hm] at h3
        exact absurd h3 (by simp)
  · intro fails c st hp
    simp [playAudioChunk, hp]

/-- Witness for C4: enqueue [1], enqueue [2] (while [1] plays), then [1]
    ends; [2] starts only after [1] ended. -/
theorem c4_playback_fifo_witness :
    (∃ t, enqueuedPcms
        [PInput.enq ⟨[1], "m"⟩, PInput.enq ⟨[2], "m"⟩, PInput.ended] =
      startedPcms (prun noFail
        [PInput.enq ⟨[1], "m"⟩, PInput.enq ⟨[2], "m"⟩, PInput.ended] pInit).2 ++ t) ∧
    List.countP isStartedEv
        [PlayEvent.started [1] (createAudioBufferFromPCM [1] 24000),
         PlayEvent.ended [1]] =
      List.countP isEndedEv
        [PlayEvent.started [1] (createAudioBufferFromPCM [1] 24000),
         PlayEvent.ended [1]] :=
  ⟨(c4_playback_fifo
      [PInput.enq ⟨[1], "m"⟩, PInput.enq ⟨[2], "m"⟩, PInput.ended]).1,
   (c4_playback_fifo
      [PInput.enq ⟨[1], "m"⟩, PInput.enq ⟨[2], "m"⟩, PInput.ended]).2.1
     [PlayEvent.started [1] (createAudioBufferFromPCM [1] 24000),
      PlayEvent.ended [1]]
     [2] (createAudioBufferFromPCM [2] 24000) [] rfl⟩

/- ### Session relay gateway (app.gateway.ts) -/

/-- The gateway's per-process state: the `connections` map from client id
    to the registered upstream session handle (identified by a numeric id),
    plus a fresh-handle counter. -/
structure GatewayState where
  connections : ℕ → Option ℕ
  nextSessionId : ℕ

/-- Events emitted to a client socket. -/
inductive GEvent where
  | sessionStarted (client : ℕ)
  | sessionError (client : ℕ) (msg : String)
  | sessionClosed (client : ℕ) (reason : String)
  deriving DecidableEq

/-- The message of the `SessionAlreadyActiveError` notification. -/
def alreadyActiveMsg : String := "Session already active."

/-- The message emitted when the SDK connect call throws. -/
def openFailedMsg : String := "Failed to initiate Gemini session."

/-- `startSession`: reject with a session-error when a handle is already
    registered for this client; otherwise open the live session (`openOk`
    reports whether the connect succeeds): on success `onOpen` emits
    session-started and the new handle is registered; on failure a
    session-error is emitted and nothing is registered.  The third
    component of the result records the `close()` calls made on handles. -/
def startSession (openOk : Bool) (client : ℕ) (st : GatewayState) :
    GatewayState × List GEvent × List ℕ :=
  if (st.connections client).isSome then
    (st, [GEvent.sessionError client alreadyActiveMsg], [])
  else if openOk then
    ({ connections := fun c => if c = client then some st.nextSessionId
         else st.connections c,
       nextSessionId := st.nextSessionId + 1 },
     [GEvent.sessionStarted client], [])
  else
    (st, [GEvent.sessionError client openFailedMsg], [])

/-- `handleDisconnect`: when a handle is registered for this client, call
    `close()` on it (recorded in the third component) and delete it from
    the table; no client event is emitted. -/
def handleDisconnect (client : ℕ) (st : GatewayState) :
    GatewayState × List GEvent × List ℕ :=
  match st.connections client with
  | some s =>
    ({ st with connections := fun c => if c = client then none
         else st.connections c },
     [], [s])
  | none => (st, [], [])

/-- The `end-session` handler just delegates to `handleDisconnect`. -/
def handleEndSession (client : ℕ) (st : GatewayState) :
    GatewayState × List GEvent × List ℕ :=
  handleDisconnect client st

/-- The `onError` callback registered with the live session: emit a
    session-error to the client and delete the map entry.  The source does
    not call `close()` on the handle here. -/
def handleUpstreamError (client : ℕ) (msg : String) (st : GatewayState) :
    GatewayState × List GEvent × List ℕ :=
  ({ st with connections := fun c => if c = client then none
       else st.connections c },
   [GEvent.sessionError client msg], [])

/-- The `onClose` callback: emit session-closed and delete the entry. -/
def handleUpstreamClose (client : ℕ) (reason : String) (st : GatewayState) :
    GatewayState × List GEvent × List ℕ :=
  ({ st with connections := fun c => if c = client then none
       else st.connections c },
   [GEvent.sessionClosed client reason], [])

def isSessionStarted : GEvent → Bool
  | GEvent.sessionStarted _ => true
  | _ => false

def isAlreadyActiveErr : GEvent → Bool
  | GEvent.sessionError _ m => m == alreadyActiveMsg
  | _ => false

/-- Claim C1: two consecutive start-session events on the same connection
    without an intervening end-session yield exactly one session-started
    and exactly one SessionAlreadyActiveError notification, and the second
    start leaves the state and the registered handle unchanged. -/
theorem c1_single_session_per_connection (st : GatewayState) (client : ℕ)
    (h : st.connections client = none) :
    ((startSession true client st).2.1 = [GEvent.sessionStarted client]) ∧
    ((startSession true client (startSession true client st).1).2.1 =
      [GEvent.sessionError client alreadyActiveMsg]) ∧
    ((startSession true client (startSession true client st).1).1 =
      (startSession true client st).1) ∧
    (List.countP isSessionStarted
        ((startSession true client st).2.1 ++
         (startSession true client (startSession true client st).1).2.1) = 1) ∧
    (List.countP isAlreadyActiveErr
        ((startSession true client st).2.1 ++
         (startSession true client (startSession true client st).1).2.1) = 1) := by
  simp [startSession, h, isSessionStarted, isAlreadyActiveErr, List.countP_cons]

/-- Witness for C1 on a fresh gateway with client 7. -/
theorem c1_single_session_per_connection_witness :
    ((⟨fun _ => none, 0⟩ : GatewayState).connections 7 = none) ∧
    (startSession true 7 (⟨fun _ => none, 0⟩ : GatewayState)).2.1 =
      [GEvent.sessionStarted 7] ∧
    (startSession true 7
        (startSession true 7 (⟨fun _ => none, 0⟩ : GatewayState)).1).2.1 =
      [GEvent.sessionError 7 alreadyActiveMsg] :=
  ⟨rfl,
   (c1_single_session_per_connection ⟨fun _ => none, 0⟩ 7 rfl).1,
   (c1_single_session_per_connection ⟨fun _ => none, 0⟩ 7 rfl).2.1⟩

/-- Claim C2, corrected: when the upstream session reports an error while a
    handle is registered, the relay notifies the client with a
    session-error event and discards the handle (the connection returns to
    the no-session state), but — unlike explicit end and transport
    disconnect, which both invoke `close()` exactly once — the error path
    never calls `close()` on the handle. -/
theorem c2_error_teardown_amended (st : GatewayState) (client : ℕ)
    (msg : String) (s : ℕ) (h : st.connections client = some s) :
    ((handleUpstreamError client msg st).2.1 = [GEvent.sessionError client msg]) ∧
    ((handleUpstreamError client msg st).1.connections client = none) ∧
    ((handleUpstreamError client msg st).2.2 = []) ∧
    ((handleDisconnect client st).2.2 = [s]) ∧
    ((handleEndSession client st).2.2 = [s]) := by
  refine ⟨rfl, by simp [handleUpstreamError], rfl, ?_, ?_⟩ <;>
    simp [handleDisconnect, handleEndSession, h]

/-- Counterexample to claim C2 as stated: with client 0 owning handle 5,
    the upstream-error path records no `close()` call, while the transport
    disconnect path on the same state does close the handle — so close is
    not invoked on the error teardown path. -/
theorem c2_error_teardown_counterexample :
    ((⟨fun c => if c = 0 then some 5 else none, 6⟩ : GatewayState).connections 0 =
      some 5) ∧
    (handleUpstreamError 0 openFailedMsg
      (⟨fun c => if c = 0 then some 5 else none, 6⟩ : GatewayState)).2.2 = [] ∧
    ¬ ((handleUpstreamError 0 openFailedMsg
          (⟨fun c => if c = 0 then some 5 else none, 6⟩ : GatewayState)).2.2 =
       (handleDisconnect 0
          (⟨fun c => if c = 0 then some 5 else none, 6⟩ : GatewayState)).2.2) := by
  refine ⟨rfl, rfl, ?_⟩
  simp [handleUpstreamError, handleDisconnect]

/-- Witness for the amended C2 with client 0 owning handle 5. -/
theorem c2_error_teardown_amended_witness :
    ((⟨fun c => if c = 0 then some 5 else none, 6⟩ : GatewayState).connections 0 =
      some 5) ∧
    (handleUpstreamError 0 openFailedMsg
        (⟨fun c => if c = 0 then some 5 else none, 6⟩ : GatewayState)).2.1 =
      [GEvent.sessionError 0 openFailedMsg] ∧
    (handleDisconnect 0
        (⟨fun c => if c = 0 then some 5 else none, 6⟩ : GatewayState)).2.2 = [5] :=
  ⟨rfl,
   (c2_error_teardown_amended ⟨fun c => if c = 0 then some 5 else none, 6⟩
     0 openFailedMsg 5 rfl).1,
   (c2_error_teardown_amended ⟨fun c => if c = 0 then some 5 else none, 6⟩
     0 openFailedMsg 5 rfl).2.2.2.1⟩

/- ### Upstream message routing (app.gateway.ts `handleGeminiMessage`) -/

structure InlineData where
  data : String
  mimeType : String
  deriving DecidableEq

structure Part where
  inlineData : Option InlineData
  text : Option String
  deriving DecidableEq

structure ModelTurn where
  parts : Option (List Part)
  deriving DecidableEq

structure ServerContent where
  modelTurn : Option ModelTurn
  deriving DecidableEq

structure LiveServerMessage where
  serverContent : Option ServerContent
  deriving DecidableEq

/-- The optional chain `message.serverContent?.modelTurn?.parts`. -/
def getParts (m : LiveServerMessage) : Option (List Part) :=
  m.serverContent.bind (fun sc => sc.modelTurn.bind (fun mt => mt.parts))

/-- Events forwarded to the client's outbound channels. -/
inductive RelayOut where
  | audioPart (data : String) (mimeType : String)
  | textPart (text : String)
  deriving DecidableEq

/-- What `handleGeminiMessage` emits for the first part: an audio-part
    event when it has inline data (`if (part?.inlineData)` — an object,
    truthy whenever present), and a text-part event when it has text
    (`if (part?.text)` — a string, whose JS truthiness also excludes the
    empty string). -/
def firstPartEvents (p : Part) : List RelayOut :=
  (match p.inlineData with
   | some d => [RelayOut.audioPart d.data d.mimeType]
   | none => []) ++
  (match p.text with
   | some t => if t = "" then [] else [RelayOut.textPart t]
   | none => [])

/-- `handleGeminiMessage`: when the parts chain is present, route
    `parts[0]` only; otherwise do nothing. -/
def handleGeminiMessage (m : LiveServerMessage) : List RelayOut :=
  match getParts m with
  | some ps =>
    match ps.head? with
    | some p => firstPartEvents p
    | none => []
  | none => []

/-- Claim C5: the relay routes only the first content part of an upstream
    message — an inline-audio first part goes to the audio channel, a text
    first part with nonempty (truthy) text to the text channel, an absent
    or empty parts list is a no-op, a first part carrying only an
    empty-string text field is likewise a no-op (the JS truthiness check
    `if (part?.text)` rejects it), and parts after the first never
    influence the output. -/
theorem c5_first_part_routing :
    (∀ m, getParts m = none → handleGeminiMessage m = []) ∧
    (∀ m, getParts m = some [] → handleGeminiMessage m = []) ∧
    (∀ m p rest, getParts m = some (p :: rest) →
      handleGeminiMessage m = firstPartEvents p) ∧
    (∀ p d, p.inlineData = some d → p.text = none →
      firstPartEvents p = [RelayOut.audioPart d.data d.mimeType]) ∧
    (∀ p t, p.inlineData = none → p.text = some t → t ≠ "" →
      firstPartEvents p = [RelayOut.textPart t]) ∧
    (∀ p, p.inlineData = none → p.text = some ("") →
      firstPartEvents p = []) := by
  refine ⟨?_, ?_, ?_, ?_, ?_, ?_⟩
  · intro m h
    simp [handleGeminiMessage, h]
  · intro m h
    simp [handleGeminiMessage, h]
  · intro m p rest h
    simp [handleGeminiMessage, h]
  · intro p d h1 h2
    simp [firstPartEvents, h1, h2]
  · intro p t h1 h2 h3
    simp [firstPartEvents, h1, h2, h3]
  · intro p h1 h2
    simp [firstPartEvents, h1, h2]

/-- Witness for C5: a two-part message (audio first, text second) emits
    only the audio-part event for the first part; a message whose first
    part carries nonempty text emits the text-part event; a first part
    carrying only empty-string text emits nothing. -/
theorem c5_first_part_routing_witness :
    getParts ⟨some ⟨some ⟨some [⟨some ⟨"QUJD", "audio/pcm"⟩, none⟩,
        ⟨none, some "zzz"⟩]⟩⟩⟩ =
      some [⟨some ⟨"QUJD", "audio/pcm"⟩, none⟩, ⟨none, some "zzz"⟩] ∧
    handleGeminiMessage ⟨some ⟨some ⟨some [⟨some ⟨"QUJD", "audio/pcm"⟩, none⟩,
        ⟨none, some "zzz"⟩]⟩⟩⟩ =
      [RelayOut.audioPart ("QUJD") ("audio/pcm")] ∧
    handleGeminiMessage ⟨some ⟨some ⟨some [⟨none, some "zzz"⟩]⟩⟩⟩ =
      [RelayOut.textPart ("zzz")] ∧
    handleGeminiMessage ⟨some ⟨some ⟨some [⟨none, some ("")⟩]⟩⟩⟩ = [] := by
  refine ⟨rfl, ?_, ?_, ?_⟩
  · have h3 := c5_first_part_routing.2.2.1
      ⟨some ⟨some ⟨some [⟨some ⟨"QUJD", "audio/pcm"⟩, none⟩, ⟨none, some "zzz"⟩]⟩⟩⟩
      ⟨some ⟨"QUJD", "audio/pcm"⟩, none⟩ [⟨none, some "zzz"⟩] rfl
    have h4 := c5_first_part_routing.2.2.2.1
      ⟨some ⟨"QUJD", "audio/pcm"⟩, none⟩ ⟨"QUJD", "audio/pcm"⟩ rfl rfl
    exact h3.trans h4
  · have h3 := c5_first_part_routing.2.2.1
      ⟨some ⟨some ⟨some [⟨none, some "zzz"⟩]⟩⟩⟩ ⟨none, some "zzz"⟩ [] rfl
    have h5 := c5_first_part_routing.2.2.2.2.1
      ⟨none, some "zzz"⟩ "zzz" rfl rfl (by decide)
    exact h3.trans h5
  · have h3 := c5_first_part_routing.2.2.1
      ⟨some ⟨some ⟨some [⟨none, some ("")⟩]⟩⟩⟩ ⟨none, some ("")⟩ [] rfl
    have h6 := c5_first_part_routing.2.2.2.2.2
      ⟨none, some ("")⟩ rfl rfl
    exact h3.trans h6

end GSPoc
